import Mathlib

/-!
Shallow embedding of the FlashFS flash file system module
(FlashFS.js, primary variant: 16-byte name field, absolute addressing,
page-aligned content allocation, as documented in the repository README).
JS numbers are modelled as `Int`; flash memory as a total map from
addresses to stored byte values.  The storage device (the external
Espruino `Flash` module) is modelled by `flashRead`, `flashWrite` and
`erasePage`.  Byte-sequence comparison of device reads against literal
arrays is modelled as list equality (the value-level semantics the code
relies on).  Errors are modelled by one constructor per distinct
`throw new Error(...)` message in the source.
-/

namespace FlashFS

/-- Flash memory: the byte value stored at each address. -/
def Flash : Type := Int → Nat

/-- Region configuration: the module-level `params.flash_addr` and
`params.flash_length` set by the `FlashFS` constructor. -/
structure Params where
  flash_addr : Int
  flash_length : Int
deriving DecidableEq

/-- Constant `params.PAGE_SIZE`. -/
def PAGE_SIZE : Int := 4096

/-- Constant `params.FILE_NAME_LENGTH` (primary variant: 16). -/
def FILE_NAME_LENGTH : Int := 16

/-- Constant `params.FILE_SIZE_LENGTH`. -/
def FILE_SIZE_LENGTH : Int := 4

/-- Constant `params.FILE_ADDR_LENGTH`. -/
def FILE_ADDR_LENGTH : Int := 4

/-- Constant `params.BOF_LENGTH`. -/
def BOF_LENGTH : Int := 1

/-- Constant `params.EOF_LENGTH`. -/
def EOF_LENGTH : Int := 1

/-- Constant `params.HEADER_BYTE`, the region magic header. -/
def HEADER_BYTE : List Nat := [56, 46, 53]

/-- Constant `params.BOF_BYTE`, the begin-of-entry sentinel. -/
def BOF_BYTE : Nat := 250

/-- Constant `params.EOF_BYTE`, the end-of-entry sentinel. -/
def EOF_BYTE : Nat := 251

/-- Device read `flash.read(length, address)`: returns exactly `length`
bytes starting at `address` (empty for non-positive length). -/
def flashRead (mem : Flash) (len addr : Int) : List Nat :=
  (List.range len.toNat).map fun i : Nat => mem (addr + (i : Int))

/-- Device write `flash.write(data, address)`: stores the byte sequence
starting at `address`; the device keeps the low 8 bits of each value. -/
def flashWrite (mem : Flash) (data : List Nat) (addr : Int) : Flash :=
  fun a =>
    if addr ≤ a ∧ a < addr + data.length then data.getD (a - addr).toNat 0 % 256
    else mem a

/-- Device page erase `flash.erasePage(address)`: resets the page at
`address` to the all-ones byte 255.  `format` only calls it at page
strides from the region base. -/
def erasePage (mem : Flash) (addr : Int) : Flash :=
  fun a => if addr ≤ a ∧ a < addr + PAGE_SIZE then 255 else mem a

/-- Utility `FlashFS.prototype.u32b4`: converts a number into its four
big-endian bytes, with JS 32-bit semantics (`(n >> k) & 0xFF`). -/
def u32b4 (n : Int) : List Nat :=
  let m := (n % 4294967296).toNat
  [m / 16777216 % 256, m / 65536 % 256, m / 256 % 256, m % 256]

/-- Utility `FlashFS.prototype.b4u32`: decodes four big-endian bytes
into a number; JS 32-bit OR and shift semantics give a signed 32-bit
result (the source notes the top byte must stay at most 127). -/
def b4u32 (arr : List Nat) : Int :=
  let m : Nat :=
    arr.getD 0 0 % 256 * 16777216 + arr.getD 1 0 % 256 * 65536 +
      arr.getD 2 0 % 256 * 256 + arr.getD 3 0 % 256
  if m < 2147483648 then (m : Int) else (m : Int) - 4294967296

/-- JS whitespace test for the byte range, as used by `String.trim`. -/
def isWS (c : Nat) : Bool :=
  c = 32 || c = 9 || c = 10 || c = 11 || c = 12 || c = 13 || c = 160

/-- Model of `E.toString(bytes).trim()`: strings are byte sequences, so
`E.toString` is the identity and `trim` strips whitespace at both ends. -/
def trim (s : List Nat) : List Nat :=
  ((s.dropWhile isWS).reverse.dropWhile isWS).reverse

/-- JS `String.prototype.padEnd(len, c)` on byte-sequence strings. -/
def padEnd (s : List Nat) (len : Int) (c : Nat) : List Nat :=
  s ++ List.replicate (len - s.length).toNat c

/-- JS `String.prototype.toLowerCase` on one byte (ASCII letters). -/
def lowerChar (c : Nat) : Nat :=
  if 65 ≤ c ∧ c ≤ 90 then c + 32 else c

/-- JS `String.prototype.toLowerCase` on a byte-sequence string. -/
def lowerStr (s : List Nat) : List Nat :=
  s.map lowerChar

/-- Mode argument of `openFile`: the recognized tokens and anything else. -/
inductive Mode where
  | r
  | w
  | other
deriving DecidableEq

/-- One constructor per distinct `throw new Error(...)` message of the
source (the spec names these error kinds). -/
inductive Err where
  | fsNotCreated
  | corruptEntry (path : List Nat)
  | fileExists
  | nameTooLong
  | directoryFull
  | regionFull
  | fileNotFound
  | invalidMode
  | seekInWriteMode
  | seekNegative
  | wrongSeekPosition
  | skipInReadMode
  | skipNegative
  | skipOutOfRange
  | refErrNewSeekAddr
  | readInWriteMode
  | writeInReadMode
  | insufficientSpace
  | scanDiverges
deriving DecidableEq

deriving instance DecidableEq for Except

/-- File descriptor produced by the `list` scan. -/
structure Entry where
  bof : Int
  path : List Nat
  length : Int
  addr : Int
  eof : Int
deriving DecidableEq

/-- Method `FlashFS.prototype.check`: reads the magic bytes at the region
base and compares them with the header constant. -/
def check (p : Params) (mem : Flash) : Bool :=
  flashRead mem (HEADER_BYTE.length : Int) p.flash_addr = HEADER_BYTE

/-- Method `FlashFS.prototype.prepare`: writes the magic header, then
returns the updated memory together with `check`. -/
def prepare (p : Params) (mem : Flash) : Flash × Bool :=
  let mem1 := flashWrite mem HEADER_BYTE p.flash_addr
  (mem1, check p mem1)

/-- Erase loop of `format`: `for (cAddr = flash_addr; cAddr < flash_addr +
flash_length; cAddr += PAGE_SIZE) erasePage(cAddr)`, with the iteration
count made explicit. -/
def eraseLoop (mem : Flash) (addr : Int) : Nat → Flash
  | 0 => mem
  | n + 1 => eraseLoop (erasePage mem addr) (addr + PAGE_SIZE) n

/-- Method `FlashFS.prototype.format`: erases every page of the region in
page-size strides, then calls `prepare`.  The stride loop runs
ceil(flash_length / PAGE_SIZE) times. -/
def format (p : Params) (mem : Flash) : Flash × Bool :=
  prepare p (eraseLoop mem p.flash_addr ((p.flash_length + PAGE_SIZE - 1) / PAGE_SIZE).toNat)

/-- Body of the `while` scan of `FlashFS.prototype.list`.  The source
advances a position variable field by field (`pos += BOF_LENGTH`, then
`pos += FILE_NAME_LENGTH`, and so on); here each field is read at its
accumulated offset written out as a sum, which is the same address
arithmetic.  The field reads are pure, so reading them when the entry is
consumed is equivalent to the source order.  The fuel models the finite
device address space: the source loop would only fail to stop on
pathological memory whose bytes keep matching the sentinels past the
region, and a directory confined to the first page holds far fewer than
`PAGE_SIZE` entries. -/
def listAux (mem : Flash) : Nat → Int → List Entry → Except Err (List Entry)
  | 0, _, _ => .error .scanDiverges
  | fuel + 1, pos, acc =>
    if flashRead mem BOF_LENGTH pos = [BOF_BYTE] then
      if flashRead mem EOF_LENGTH
          (pos + BOF_LENGTH + FILE_NAME_LENGTH + FILE_SIZE_LENGTH + FILE_ADDR_LENGTH) =
          [EOF_BYTE] then
        listAux mem fuel
          (pos + BOF_LENGTH + FILE_NAME_LENGTH + FILE_SIZE_LENGTH + FILE_ADDR_LENGTH +
            EOF_LENGTH)
          (acc ++
            [⟨pos, trim (flashRead mem FILE_NAME_LENGTH (pos + BOF_LENGTH)),
              b4u32 (flashRead mem FILE_SIZE_LENGTH (pos + BOF_LENGTH + FILE_NAME_LENGTH)),
              b4u32 (flashRead mem FILE_ADDR_LENGTH
                (pos + BOF_LENGTH + FILE_NAME_LENGTH + FILE_SIZE_LENGTH)),
              pos + BOF_LENGTH + FILE_NAME_LENGTH + FILE_SIZE_LENGTH + FILE_ADDR_LENGTH⟩])
      else
        .error (.corruptEntry (trim (flashRead mem FILE_NAME_LENGTH (pos + BOF_LENGTH))))
    else .ok acc

/-- Method `FlashFS.prototype.list`: requires `check`, then scans the
directory from the first byte after the header. -/
def list (p : Params) (mem : Flash) : Except Err (List Entry) :=
  if check p mem then
    listAux mem PAGE_SIZE.toNat (p.flash_addr + (HEADER_BYTE.length : Int)) []
  else .error .fsNotCreated

/-- File handle state (`FileFS`): fixed mode, the bound entry fields
`bof`, `addr`, `length`, and the cursor `seekAddr`.  Write handles are
built from the descriptor `{bof, addr}` whose `length` member the source
leaves undefined and never reads in write mode; it is modelled as 0. -/
structure FileFS where
  mode : Mode
  bof : Int
  addr : Int
  length : Int
  seekAddr : Int
deriving DecidableEq

/-- New content address computed by `openFile` in write mode (line 187):
`flash_addr + (Math.floor((lastUsedAddr - flash_addr) / PAGE_SIZE) + 1) *
PAGE_SIZE`.  `Int` division by the positive `PAGE_SIZE` is floor
division, matching `Math.floor`. -/
def newContentAddr (p : Params) (lastUsedAddr : Int) : Int :=
  p.flash_addr + ((lastUsedAddr - p.flash_addr) / PAGE_SIZE + 1) * PAGE_SIZE

/-- Tail of the write branch of `openFile`, given the computed new entry
position `newBof` and `lastUsedAddr`: the directory-page bound check, the
region bound check, the four device writes (BOF sentinel, padded name,
content address, EOF sentinel; the size field at offset +17 is left
untouched), and the returned handle with its cursor at the new content
address. -/
def openFileW (p : Params) (mem : Flash) (path : List Nat) (newBof lastUsedAddr : Int) :
    Except Err (FileFS × Flash) :=
  if newBof + BOF_LENGTH + FILE_NAME_LENGTH + FILE_SIZE_LENGTH + FILE_ADDR_LENGTH +
      EOF_LENGTH - p.flash_addr > PAGE_SIZE - 1 then .error .directoryFull
  else
    if newContentAddr p lastUsedAddr ≥ p.flash_length then .error .regionFull
    else
      .ok (⟨.w, newBof, newContentAddr p lastUsedAddr, 0, newContentAddr p lastUsedAddr⟩,
        flashWrite
          (flashWrite
            (flashWrite (flashWrite mem [BOF_BYTE] newBof)
              (padEnd path FILE_NAME_LENGTH 32) (newBof + BOF_LENGTH))
            (u32b4 (newContentAddr p lastUsedAddr))
            (newBof + BOF_LENGTH + FILE_NAME_LENGTH + FILE_SIZE_LENGTH))
          [EOF_BYTE]
          (newBof + BOF_LENGTH + FILE_NAME_LENGTH + FILE_SIZE_LENGTH + FILE_ADDR_LENGTH))

/-- Method `FlashFS.prototype.openFile`. -/
def openFile (p : Params) (mem : Flash) (path : List Nat) (mode : Mode) :
    Except Err (FileFS × Flash) :=
  match list p mem with
  | .error e => .error e
  | .ok ls =>
    let existsFile := ls.find? fun x => lowerStr x.path = lowerStr path
    match mode with
    | .w =>
      match existsFile with
      | some _ => .error .fileExists
      | none =>
        if (path.length : Int) > FILE_NAME_LENGTH then .error .nameTooLong
        else
          let pair :=
            match ls.getLast? with
            | some lastFile => (lastFile.eof + EOF_LENGTH, lastFile.addr + lastFile.length)
            | none =>
              (p.flash_addr + (HEADER_BYTE.length : Int),
               p.flash_addr + (HEADER_BYTE.length : Int))
          openFileW p mem path pair.1 pair.2
    | .r =>
      match existsFile with
      | some f => .ok (⟨.r, f.bof, f.addr, f.length, f.addr⟩, mem)
      | none => .error .fileNotFound
    | .other => .error .invalidMode

/-- Method `FileFS.prototype.seek`.  A missing argument (`undefined`)
skips the whole guarded block; otherwise write mode, negative values and
out-of-range candidate positions are rejected in source order.  Returns
the position relative to the content start. -/
def seek (h : FileFS) (nBytes : Option Int) : Except Err (Int × FileFS) :=
  match nBytes with
  | none => .ok (h.seekAddr - h.addr, h)
  | some n =>
    if h.mode = .w then .error .seekInWriteMode
    else if n < 0 then .error .seekNegative
    else
      let newSeekAddr := h.addr + n
      if newSeekAddr < h.addr ∨ newSeekAddr > h.addr + h.length then .error .wrongSeekPosition
      else
        let h1 : FileFS := { h with seekAddr := newSeekAddr }
        .ok (h1.seekAddr - h1.addr, h1)

/-- Method `FileFS.prototype.skip`.  The guard `if (nBytes)` is skipped
for a missing argument and for 0 (falsy).  Inside the guard, after the
mode and sign checks, line 315 of the source reads the identifier
`newSeekAddr`, which is not declared anywhere in scope (the declared
local is `newSkipAddr`); evaluating it raises a JS ReferenceError,
modelled by `Err.refErrNewSeekAddr`. -/
def skip (h : FileFS) (nBytes : Option Int) : Except Err (Int × FileFS) :=
  match nBytes with
  | none => .ok (h.seekAddr - h.addr, h)
  | some n =>
    if n ≠ 0 then
      if h.mode = .r then .error .skipInReadMode
      else if n < 0 then .error .skipNegative
      else .error .refErrNewSeekAddr
    else .ok (h.seekAddr - h.addr, h)

/-- Method `FileFS.prototype.readBytes`: returns the available bytes (at
most the requested length, never past the entry size) and advances the
cursor, or `none` (JS `undefined`) at end of file. -/
def readBytes (mem : Flash) (h : FileFS) (length : Int) :
    Except Err (Option (List Nat) × FileFS) :=
  if h.mode = .w then .error .readInWriteMode
  else
    let absEof := h.addr + h.length
    let avail0 := absEof - (h.seekAddr + length)
    let availableLength := if avail0 > 0 then length else absEof - h.seekAddr
    if availableLength > 0 then
      .ok (some (flashRead mem availableLength h.seekAddr),
        { h with seekAddr := h.seekAddr + availableLength })
    else .ok (none, h)

/-- Write payload: a byte array or string, or a single number treated as
one byte. -/
inductive WriteData where
  | bytes (data : List Nat)
  | byte (value : Int)

/-- Byte sequence a payload stores on the device. -/
def writeData : WriteData → List Nat
  | .bytes d => d
  | .byte v => [(v % 256).toNat]

/-- JS length computation of `FileFS.prototype.write`: `buffer.length`
for objects and strings, 1 for a number. -/
def writeLen : WriteData → Int
  | .bytes d => d.length
  | .byte _ => 1

/-- Method `FileFS.prototype.write` (primary variant): note that the
space check of line 390 compares the absolute cursor against
`params.flash_length` alone, not against `flash_addr + flash_length`. -/
def write (p : Params) (mem : Flash) (h : FileFS) (buffer : WriteData) :
    Except Err (Int × FileFS × Flash) :=
  let lenBuffer := writeLen buffer
  if h.mode = .r then .error .writeInReadMode
  else if h.seekAddr + lenBuffer > p.flash_length then .error .insufficientSpace
  else
    .ok (lenBuffer, { h with seekAddr := h.seekAddr + lenBuffer },
      flashWrite mem (writeData buffer) h.seekAddr)

/-- Method `FileFS.prototype.close`: in write mode computes the file size
as `seekAddr - fileIndex.addr` and writes its four big-endian bytes into
the size field at `fileIndex.bof + BOF_LENGTH + FILE_NAME_LENGTH`; in
read mode the memory is untouched.  Always returns true. -/
def close (mem : Flash) (h : FileFS) : Flash × Bool :=
  if h.mode = .w then
    (flashWrite mem (u32b4 (h.seekAddr - h.addr)) (h.bof + BOF_LENGTH + FILE_NAME_LENGTH), true)
  else (mem, true)

/-- The round-trip scenario of the spec: create a file, write `b`, close,
reopen for reading and read back `b.length` bytes.  Returns the bytes
the final read yields, or `none` if any step fails or reports no data. -/
def roundTrip (p : Params) (mem : Flash) (name b : List Nat) : Option (List Nat) :=
  match openFile p mem name .w with
  | .error _ => none
  | .ok (h1, mem1) =>
    match write p mem1 h1 (.bytes b) with
    | .error _ => none
    | .ok (_, h2, mem2) =>
      let mem3 := (close mem2 h2).1
      match openFile p mem3 name .r with
      | .error _ => none
      | .ok (h3, mem4) =>
        match readBytes mem4 h3 (b.length : Int) with
        | .ok (some buf, _) => some buf
        | _ => none

/-- Width of one directory entry on media. -/
def ENTRY_WIDTH : Int :=
  BOF_LENGTH + FILE_NAME_LENGTH + FILE_SIZE_LENGTH + FILE_ADDR_LENGTH + EOF_LENGTH

/-- Media offset of the BOF byte of directory slot `i`: the scan walks
fixed-width slots starting right after the header. -/
def entryOff (p : Params) (i : Nat) : Int :=
  p.flash_addr + (HEADER_BYTE.length : Int) + ENTRY_WIDTH * i

/-- Closed-form decode of directory slot `i`, with the field offsets the
scan uses (name at +1, size at +17, content address at +21, EOF at +25). -/
def entryAt (p : Params) (mem : Flash) (i : Nat) : Entry :=
  { bof := entryOff p i
    path := trim (flashRead mem FILE_NAME_LENGTH (entryOff p i + 1))
    length := b4u32 (flashRead mem FILE_SIZE_LENGTH (entryOff p i + 17))
    addr := b4u32 (flashRead mem FILE_ADDR_LENGTH (entryOff p i + 21))
    eof := entryOff p i + 25 }

/-- Slot `i` carries the BOF sentinel. -/
def bofOk (p : Params) (mem : Flash) (i : Nat) : Prop :=
  mem (entryOff p i) = BOF_BYTE

/-- Slot `i` carries the EOF sentinel at its expected offset. -/
def eofOk (p : Params) (mem : Flash) (i : Nat) : Prop :=
  mem (entryOff p i + 25) = EOF_BYTE

/-- The first `k` slots are all well-formed entries. -/
def goodPrefix (p : Params) (mem : Flash) (k : Nat) : Prop :=
  ∀ i, i < k → bofOk p mem i ∧ eofOk p mem i

/-- The decoded directory content of the first `k` slots. -/
def dirEntries (p : Params) (mem : Flash) (k : Nat) : List Entry :=
  (List.range k).map (entryAt p mem)

/-- A region state whose directory holds exactly `k` entries: the header
checks out, the first `k` slots are valid, and slot `k` has no BOF. -/
def dirState (p : Params) (mem : Flash) (k : Nat) : Prop :=
  check p mem = true ∧ goodPrefix p mem k ∧ ¬ bofOk p mem k

/-- No existing entry matches `name` case-insensitively. -/
def freshName (p : Params) (mem : Flash) (k : Nat) (name : List Nat) : Prop :=
  ∀ i, i < k → lowerStr (entryAt p mem i).path ≠ lowerStr name

/-- A well-formed new file name: nonempty, at most the name field width,
made of byte values that are not JS whitespace (so that padding with
spaces and trimming on read-back are inverses). -/
def nameOk (s : List Nat) : Prop :=
  s ≠ [] ∧ (s.length : Int) ≤ FILE_NAME_LENGTH ∧ ∀ c ∈ s, c < 256 ∧ isWS c = false

/-- The `lastUsedAddr` value `openFile` computes in write mode: end of
the previous content span, or the first free directory position when the
table is empty. -/
def lastUsedAddr (p : Params) (mem : Flash) (k : Nat) : Int :=
  match k with
  | 0 => p.flash_addr + (HEADER_BYTE.length : Int)
  | j + 1 => (entryAt p mem j).addr + (entryAt p mem j).length

/-- Maximum file count the spec states:
floor((pageSize - headerLength) / entryWidth). -/
def maxFiles : Int :=
  (PAGE_SIZE - (HEADER_BYTE.length : Int)) / ENTRY_WIDTH

/-- Memory after the four directory writes `openFile` performs for a new
entry at position `pos` with content address `A`. -/
def wOpen (mem : Flash) (name : List Nat) (pos A : Int) : Flash :=
  flashWrite
    (flashWrite
      (flashWrite (flashWrite mem [BOF_BYTE] pos) (padEnd name FILE_NAME_LENGTH 32) (pos + 1))
      (u32b4 A) (pos + 21))
    [EOF_BYTE] (pos + 25)

/-- Memory after creating an entry at `pos`, writing the content bytes
`b` at `A` and closing (which finalizes the size field at `pos + 17`). -/
def wFull (mem : Flash) (name b : List Nat) (pos A : Int) : Flash :=
  flashWrite (flashWrite (wOpen mem name pos A) b A) (u32b4 (b.length : Int)) (pos + 17)

instance (p : Params) (mem : Flash) (i : Nat) : Decidable (bofOk p mem i) :=
  inferInstanceAs (Decidable (_ = _))

instance (p : Params) (mem : Flash) (i : Nat) : Decidable (eofOk p mem i) :=
  inferInstanceAs (Decidable (_ = _))

instance (p : Params) (mem : Flash) (k : Nat) : Decidable (goodPrefix p mem k) :=
  inferInstanceAs (Decidable (∀ i, i < k → _ ∧ _))

instance (p : Params) (mem : Flash) (k : Nat) : Decidable (dirState p mem k) :=
  inferInstanceAs (Decidable (_ ∧ _ ∧ _))

instance (p : Params) (mem : Flash) (k : Nat) (name : List Nat) :
    Decidable (freshName p mem k name) :=
  inferInstanceAs (Decidable (∀ i, i < k → _ ≠ _))

instance (s : List Nat) : Decidable (nameOk s) :=
  inferInstanceAs (Decidable (_ ∧ _ ∧ _))

/-- Concrete region used by witnesses: two pages at base 0. -/
def pW : Params := ⟨0, 8192⟩

/-- Concrete freshly formatted memory for witnesses. -/
def memW : Flash := (format pW (fun _ => 0)).1

/-- Error projection of a result, usable on results whose success value
carries a memory function. -/
def errOf {α : Type} : Except Err α → Option Err
  | .error e => some e
  | .ok _ => none

/-- Content address of the handle an `openFile` call returns (dummy -1
on failure). -/
def openAddr : Except Err (FileFS × Flash) → Int
  | .ok (h, _) => h.addr
  | .error _ => -1

/-- Concrete four-page region at base 0 for allocation runs. -/
def pA : Params := ⟨0, 16384⟩

/-- Formatted memory of the four-page region. -/
def memA0 : Flash := (format pA (fun _ => 0)).1

/-- Concrete state with one zero-size file: open for write and close
immediately (the size field is finalized as 0). -/
def memA : Flash :=
  match openFile pA memA0 [97] .w with
  | .ok (h, m) => (close m h).1
  | .error _ => memA0

/-- Concrete region at a nonzero base for exercising the write bound:
base 4096, three pages long. -/
def pC4 : Params := ⟨4096, 12288⟩

/-- Formatted memory of the nonzero-base region. -/
def memC4 : Flash := (format pC4 (fun _ => 0)).1

/-- Handle and memory after creating a file on the nonzero-base region
and filling its first reserved page completely (4096 bytes). -/
def c4state : FileFS × Flash :=
  match openFile pC4 memC4 [97] .w with
  | .ok (h, m) =>
    match write pC4 m h (.bytes (List.replicate 4096 0)) with
    | .ok (_, h2, m2) => (h2, m2)
    | .error _ => (h, m)
  | .error _ => (⟨.r, 0, 0, 0, 0⟩, memC4)

/-- Fresh write handle on the witness region. -/
def c6h : FileFS :=
  match openFile pW memW [97] .w with
  | .ok (h, _) => h
  | .error _ => ⟨.r, 0, 0, 0, 0⟩

/-- Concrete memory with one valid directory entry (name byte 97, size 3,
content address 4096), written at the slot offsets. -/
def memD1 : Flash :=
  flashWrite
    (flashWrite
      (flashWrite
        (flashWrite (flashWrite memW [BOF_BYTE] 3) (padEnd [97] FILE_NAME_LENGTH 32) 4)
        (u32b4 3) 20)
      (u32b4 4096) 24)
    [EOF_BYTE] 28

/-- Concrete memory whose single entry lacks the EOF sentinel. -/
def memD2 : Flash :=
  flashWrite
    (flashWrite
      (flashWrite (flashWrite memW [BOF_BYTE] 3) (padEnd [97] FILE_NAME_LENGTH 32) 4)
      (u32b4 3) 20)
    (u32b4 4096) 24

namespace V2

/-- Name field width of the second source variant (32 bytes). -/
def FILE_NAME_LENGTH : Int := 32

/-- Header bytes of the second source variant. -/
def HEADER_BYTES : List Nat := [70, 83]

/-- Method `FileFS.prototype.write` of the second variant: the handle
cursor and entry address are region-relative, so the bound compares the
region-relative end position against `flash_length`, and the device
write happens at `flash_addr + fileIndex.addr + seekAddr`. -/
def write (p : Params) (mem : Flash) (h : FileFS) (buffer : WriteData) :
    Except Err (Int × FileFS × Flash) :=
  if h.mode = .r then .error .writeInReadMode
  else
    let lenBuffer := writeLen buffer
    if h.addr + h.seekAddr + lenBuffer > p.flash_length then .error .insufficientSpace
    else
      .ok (lenBuffer, { h with seekAddr := h.seekAddr + lenBuffer },
        flashWrite mem (writeData buffer) (p.flash_addr + h.addr + h.seekAddr))

/-- Method `FileFS.prototype.skip` of the second variant (this one uses
its declared local `newSkipAddr` throughout). -/
def skip (p : Params) (h : FileFS) (nBytes : Option Int) : Except Err (Int × FileFS) :=
  match nBytes with
  | none => .ok (h.seekAddr, h)
  | some n =>
    if n ≠ 0 then
      if h.mode = .r then .error .skipInReadMode
      else if n < 0 then .error .skipNegative
      else
        let newSkipAddr := h.seekAddr + n
        if h.addr + newSkipAddr > p.flash_length then .error .skipOutOfRange
        else .ok (newSkipAddr, { h with seekAddr := newSkipAddr })
    else .ok (h.seekAddr, h)

/-- Method `FileFS.prototype.close` of the second variant: still computes
`seekAddr - fileIndex.addr` although its cursor is region-relative and
starts at 0. -/
def close (p : Params) (mem : Flash) (h : FileFS) : Flash × Bool :=
  if h.mode = .w then
    (flashWrite mem (u32b4 (h.seekAddr - h.addr))
      (p.flash_addr + h.bof + BOF_LENGTH + FILE_NAME_LENGTH), true)
  else (mem, true)

end V2

/-! Basic facts about the device model. -/

theorem flashWrite_out (mem : Flash) (data : List Nat) (addr a : Int)
    (h : a < addr ∨ addr + data.length ≤ a) : flashWrite mem data addr a = mem a := by
  unfold flashWrite
  rw [if_neg]
  omega

theorem flashWrite_in (mem : Flash) (data : List Nat) (addr : Int) (i : Nat)
    (h : i < data.length) :
    flashWrite mem data addr (addr + i) = data.getD i 0 % 256 := by
  unfold flashWrite
  rw [if_pos (by constructor <;> omega)]
  have e : (addr + (i : Int) - addr).toNat = i := by omega
  rw [e]

theorem flashRead_length (mem : Flash) (len addr : Int) :
    (flashRead mem len addr).length = len.toNat := by
  unfold flashRead
  rw [List.length_map, List.length_range]

theorem flashRead_one (mem : Flash) (addr : Int) : flashRead mem 1 addr = [mem addr] := by
  unfold flashRead
  have h : List.range (1 : Int).toNat = [0] := rfl
  rw [h]
  simp

theorem flashRead_congr (mem1 mem2 : Flash) (len addr : Int)
    (H : ∀ i : Nat, i < len.toNat → mem1 (addr + i) = mem2 (addr + i)) :
    flashRead mem1 len addr = flashRead mem2 len addr := by
  unfold flashRead
  apply List.map_congr_left
  intro i hi
  exact H i (List.mem_range.mp hi)

theorem flashRead_flashWrite (mem : Flash) (data : List Nat) (addr : Int) :
    flashRead (flashWrite mem data addr) (data.length : Int) addr = data.map (· % 256) := by
  apply List.ext_getElem
  · simp [flashRead]
  · intro i h1 h2
    have hi : i < data.length := by simpa using h2
    rw [List.getElem_map]
    have h3 : i < ((data.length : Int)).toNat := by omega
    unfold flashRead
    rw [List.getElem_map, List.getElem_range]
    rw [flashWrite_in mem data addr i hi]
    rw [List.getD_eq_getElem data 0 hi]

theorem flashRead_flashWrite_len (mem : Flash) (data : List Nat) (addr len : Int)
    (h : len = (data.length : Int)) :
    flashRead (flashWrite mem data addr) len addr = data.map (· % 256) := by
  subst h
  exact flashRead_flashWrite mem data addr

theorem flashRead_flashWrite_out (mem : Flash) (data : List Nat) (waddr len addr : Int)
    (h : addr + len ≤ waddr ∨ waddr + data.length ≤ addr) :
    flashRead (flashWrite mem data waddr) len addr = flashRead mem len addr := by
  apply flashRead_congr
  intro i hi
  apply flashWrite_out
  omega

theorem flashWrite_single (mem : Flash) (v : Nat) (addr : Int) (hv : v < 256) :
    flashWrite mem [v] addr addr = v := by
  have h := flashWrite_in mem [v] addr 0 (by simp)
  simpa [Nat.mod_eq_of_lt hv] using h

theorem padEnd_length (s : List Nat) (len : Int) (c : Nat) (h : (s.length : Int) ≤ len) :
    ((padEnd s len c).length : Int) = len := by
  simp only [padEnd, List.length_append, List.length_replicate]
  omega

theorem padEnd_bytes (s : List Nat) (len : Int) (h : ∀ c ∈ s, c < 256) :
    ∀ c ∈ padEnd s len 32, c < 256 := by
  intro c hc
  rcases List.mem_append.mp hc with h1 | h2
  · exact h c h1
  · have := List.eq_of_mem_replicate h2
    omega

/-! Facts about the byte codecs. -/

theorem u32b4_length (n : Int) : (u32b4 n).length = 4 := rfl

theorem u32b4_lt (n : Int) : ∀ x ∈ u32b4 n, x < 256 := by
  intro x hx
  simp [u32b4] at hx
  rcases hx with h | h | h | h <;> omega

theorem map_mod256_eq (l : List Nat) (h : ∀ x ∈ l, x < 256) : l.map (· % 256) = l := by
  conv_rhs => rw [← List.map_id l]
  apply List.map_congr_left
  intro a ha
  simp [Nat.mod_eq_of_lt (h a ha)]

theorem b4u32_u32b4 (n : Int) (h0 : 0 ≤ n) (h1 : n < 2147483648) :
    b4u32 (u32b4 n) = n := by
  unfold u32b4 b4u32
  have hm : n % 4294967296 = n := Int.emod_eq_of_lt h0 (by omega)
  rw [hm]
  simp only [List.getD_cons_zero, List.getD_cons_succ]
  have hdig : n.toNat / 16777216 % 256 % 256 * 16777216 + n.toNat / 65536 % 256 % 256 * 65536 +
      n.toNat / 256 % 256 % 256 * 256 + n.toNat % 256 % 256 = n.toNat := by
    omega
  rw [hdig]
  rw [if_pos (by omega)]
  omega

/-! Facts about the string helpers. -/

/-! Characterization of the directory scan. -/

theorem bof_read_cond (mem : Flash) (pos : Int) :
    (flashRead mem BOF_LENGTH pos = [BOF_BYTE]) ↔ mem pos = BOF_BYTE := by
  have h : BOF_LENGTH = (1 : Int) := rfl
  rw [h, flashRead_one]
  simp

theorem eof_read_cond (mem : Flash) (pos : Int) :
    (flashRead mem EOF_LENGTH pos = [EOF_BYTE]) ↔ mem pos = EOF_BYTE := by
  have h : EOF_LENGTH = (1 : Int) := rfl
  rw [h, flashRead_one]
  simp

theorem listAux_step_stop (mem : Flash) (fuel : Nat) (pos : Int) (acc : List Entry)
    (hb : mem pos ≠ BOF_BYTE) : listAux mem (fuel + 1) pos acc = .ok acc := by
  rw [listAux, if_neg (fun hc => hb ((bof_read_cond mem pos).mp hc))]

theorem listAux_step_corrupt (mem : Flash) (fuel : Nat) (pos : Int) (acc : List Entry)
    (hb : mem pos = BOF_BYTE) (he : mem (pos + 25) ≠ EOF_BYTE) :
    listAux mem (fuel + 1) pos acc =
      .error (.corruptEntry (trim (flashRead mem FILE_NAME_LENGTH (pos + 1)))) := by
  rw [listAux, if_pos ((bof_read_cond mem pos).mpr hb)]
  have e1 : pos + BOF_LENGTH + FILE_NAME_LENGTH + FILE_SIZE_LENGTH + FILE_ADDR_LENGTH =
      pos + 25 := by
    simp only [BOF_LENGTH, FILE_NAME_LENGTH, FILE_SIZE_LENGTH, FILE_ADDR_LENGTH]
    ring
  have e2 : pos + BOF_LENGTH = pos + 1 := by
    simp only [BOF_LENGTH]
  rw [e1, e2, if_neg (fun hc => he ((eof_read_cond mem (pos + 25)).mp hc))]

theorem listAux_step_good (mem : Flash) (fuel : Nat) (pos : Int) (acc : List Entry)
    (hb : mem pos = BOF_BYTE) (he : mem (pos + 25) = EOF_BYTE) :
    listAux mem (fuel + 1) pos acc =
      listAux mem fuel (pos + 26)
        (acc ++ [⟨pos, trim (flashRead mem FILE_NAME_LENGTH (pos + 1)),
          b4u32 (flashRead mem FILE_SIZE_LENGTH (pos + 17)),
          b4u32 (flashRead mem FILE_ADDR_LENGTH (pos + 21)), pos + 25⟩]) := by
  rw [listAux, if_pos ((bof_read_cond mem pos).mpr hb)]
  have e1 : pos + BOF_LENGTH + FILE_NAME_LENGTH + FILE_SIZE_LENGTH + FILE_ADDR_LENGTH =
      pos + 25 := by
    simp only [BOF_LENGTH, FILE_NAME_LENGTH, FILE_SIZE_LENGTH, FILE_ADDR_LENGTH]
    ring
  have e2 : pos + BOF_LENGTH = pos + 1 := by
    simp only [BOF_LENGTH]
  have e3 : pos + BOF_LENGTH + FILE_NAME_LENGTH = pos + 17 := by
    simp only [BOF_LENGTH, FILE_NAME_LENGTH]
    ring
  have e4 : pos + BOF_LENGTH + FILE_NAME_LENGTH + FILE_SIZE_LENGTH = pos + 21 := by
    simp only [BOF_LENGTH, FILE_NAME_LENGTH, FILE_SIZE_LENGTH]
    ring
  have e5 : pos + BOF_LENGTH + FILE_NAME_LENGTH + FILE_SIZE_LENGTH + FILE_ADDR_LENGTH +
      EOF_LENGTH = pos + 26 := by
    simp only [BOF_LENGTH, FILE_NAME_LENGTH, FILE_SIZE_LENGTH, FILE_ADDR_LENGTH, EOF_LENGTH]
    ring
  rw [e5, e1, e4, e3, e2, if_pos ((eof_read_cond mem (pos + 25)).mpr he)]

theorem entryOff_succ (p : Params) (j : Nat) : entryOff p j + 26 = entryOff p (j + 1) := by
  simp only [entryOff, ENTRY_WIDTH, BOF_LENGTH, FILE_NAME_LENGTH, FILE_SIZE_LENGTH,
    FILE_ADDR_LENGTH, EOF_LENGTH]
  push_cast
  ring

theorem listAux_good (p : Params) (mem : Flash) (k : Nat)
    (hpre : goodPrefix p mem k) (hstop : ¬ bofOk p mem k) :
    ∀ (fuel j : Nat) (acc : List Entry), j ≤ k → k - j < fuel →
      listAux mem fuel (entryOff p j) acc =
        .ok (acc ++ (List.range' j (k - j)).map (entryAt p mem)) := by
  intro fuel
  induction fuel with
  | zero =>
    intro j acc h1 h2
    omega
  | succ f ih =>
    intro j acc h1 h2
    rcases eq_or_lt_of_le h1 with rfl | hlt
    · rw [listAux_step_stop mem f (entryOff p j) acc hstop]
      simp
    · obtain ⟨hb, he⟩ := hpre j hlt
      rw [listAux_step_good mem f (entryOff p j) acc hb he, entryOff_succ]
      rw [ih (j + 1) _ hlt (by omega)]
      rw [List.append_assoc]
      congr 1
      have hr : k - j = (k - (j + 1)) + 1 := by omega
      rw [hr, List.range'_succ, List.map_cons]
      rfl

theorem listAux_corrupt (p : Params) (mem : Flash) (j : Nat)
    (hpre : goodPrefix p mem j) (hb : bofOk p mem j) (he : ¬ eofOk p mem j) :
    ∀ (fuel i : Nat) (acc : List Entry), i ≤ j → j - i < fuel →
      listAux mem fuel (entryOff p i) acc =
        .error (.corruptEntry (entryAt p mem j).path) := by
  intro fuel
  induction fuel with
  | zero =>
    intro i acc h1 h2
    omega
  | succ f ih =>
    intro i acc h1 h2
    rcases eq_or_lt_of_le h1 with rfl | hlt
    · exact listAux_step_corrupt mem f (entryOff p i) acc hb he
    · obtain ⟨hbi, hei⟩ := hpre i hlt
      rw [listAux_step_good mem f (entryOff p i) acc hbi hei, entryOff_succ]
      exact ih (i + 1) _ hlt (by omega)

theorem list_ok_of_dirState (p : Params) (mem : Flash) (k : Nat)
    (h : dirState p mem k) (hk : k < PAGE_SIZE.toNat) :
    list p mem = .ok (dirEntries p mem k) := by
  obtain ⟨hc, hpre, hstop⟩ := h
  unfold list
  rw [if_pos hc]
  have h0 : p.flash_addr + (HEADER_BYTE.length : Int) = entryOff p 0 := by
    simp [entryOff]
  rw [h0, listAux_good p mem k hpre hstop PAGE_SIZE.toNat 0 [] (Nat.zero_le k) (by omega)]
  simp [dirEntries, List.range_eq_range']

theorem list_corrupt (p : Params) (mem : Flash) (j : Nat)
    (hc : check p mem = true) (hpre : goodPrefix p mem j) (hb : bofOk p mem j)
    (he : ¬ eofOk p mem j) (hj : j < PAGE_SIZE.toNat) :
    list p mem = .error (.corruptEntry (entryAt p mem j).path) := by
  unfold list
  rw [if_pos hc]
  have h0 : p.flash_addr + (HEADER_BYTE.length : Int) = entryOff p 0 := by
    simp [entryOff]
  rw [h0]
  exact listAux_corrupt p mem j hpre hb he PAGE_SIZE.toNat 0 [] (Nat.zero_le j) (by omega)

/-! Reduction of `openFile` in write mode on a characterized state. -/

theorem entryOff_zero (p : Params) :
    entryOff p 0 = p.flash_addr + (HEADER_BYTE.length : Int) := by
  simp [entryOff, ENTRY_WIDTH]

theorem dirEntries_getLast (p : Params) (mem : Flash) (j : Nat) :
    (dirEntries p mem (j + 1)).getLast? = some (entryAt p mem j) := by
  unfold dirEntries
  rw [List.range_succ, List.map_append]
  simp

theorem find_none_of_fresh (p : Params) (mem : Flash) (k : Nat) (name : List Nat)
    (hf : freshName p mem k name) :
    (dirEntries p mem k).find? (fun x => lowerStr x.path = lowerStr name) = none := by
  rw [List.find?_eq_none]
  intro x hx
  simp only [dirEntries, List.mem_map, List.mem_range] at hx
  obtain ⟨i, hi, rfl⟩ := hx
  simpa using hf i hi

theorem find_append_single (pred : Entry → Bool) (E : List Entry) (e : Entry)
    (hE : ∀ x ∈ E, pred x = false) (he : pred e = true) :
    (E ++ [e]).find? pred = some e := by
  induction E with
  | nil => simp [List.find?_cons, he]
  | cons a t ih =>
    rw [List.cons_append, List.find?_cons]
    rw [hE a (by simp)]
    exact ih fun x hx => hE x (by simp [hx])

theorem openFileW_eq (p : Params) (mem : Flash) (path : List Nat) (pos lu : Int) :
    openFileW p mem path pos lu =
      if pos + 26 - p.flash_addr > PAGE_SIZE - 1 then .error .directoryFull
      else
        if newContentAddr p lu ≥ p.flash_length then .error .regionFull
        else
          .ok (⟨.w, pos, newContentAddr p lu, 0, newContentAddr p lu⟩,
            flashWrite
              (flashWrite
                (flashWrite (flashWrite mem [BOF_BYTE] pos)
                  (padEnd path FILE_NAME_LENGTH 32) (pos + 1))
                (u32b4 (newContentAddr p lu)) (pos + 21))
              [EOF_BYTE] (pos + 25)) := by
  unfold openFileW
  have e5 : pos + BOF_LENGTH + FILE_NAME_LENGTH + FILE_SIZE_LENGTH + FILE_ADDR_LENGTH +
      EOF_LENGTH = pos + 26 := by
    simp only [BOF_LENGTH, FILE_NAME_LENGTH, FILE_SIZE_LENGTH, FILE_ADDR_LENGTH, EOF_LENGTH]
    ring
  have e1 : pos + BOF_LENGTH + FILE_NAME_LENGTH + FILE_SIZE_LENGTH + FILE_ADDR_LENGTH =
      pos + 25 := by
    simp only [BOF_LENGTH, FILE_NAME_LENGTH, FILE_SIZE_LENGTH, FILE_ADDR_LENGTH]
    ring
  have e4 : pos + BOF_LENGTH + FILE_NAME_LENGTH + FILE_SIZE_LENGTH = pos + 21 := by
    simp only [BOF_LENGTH, FILE_NAME_LENGTH, FILE_SIZE_LENGTH]
    ring
  have e2 : pos + BOF_LENGTH = pos + 1 := by
    simp only [BOF_LENGTH]
  rw [e5, e1, e4, e2]

theorem openFile_w_reduce (p : Params) (mem : Flash) (k : Nat) (name : List Nat)
    (hd : dirState p mem k) (hk : k < PAGE_SIZE.toNat)
    (hf : freshName p mem k name) (hn : (name.length : Int) ≤ FILE_NAME_LENGTH) :
    openFile p mem name .w = openFileW p mem name (entryOff p k) (lastUsedAddr p mem k) := by
  unfold openFile
  rw [list_ok_of_dirState p mem k hd hk]
  dsimp only
  rw [find_none_of_fresh p mem k name hf]
  dsimp only
  rw [if_neg (by omega)]
  cases k with
  | zero =>
    dsimp only [dirEntries, List.range_zero, List.map_nil, List.getLast?]
    rw [entryOff_zero]
    rfl
  | succ j =>
    rw [dirEntries_getLast p mem j]
    dsimp only [entryAt]
    have e6 : entryOff p j + 25 + EOF_LENGTH = entryOff p (j + 1) := by
      have := entryOff_succ p j
      simp only [EOF_LENGTH]
      omega
    rw [e6]
    rfl

theorem dropWhile_replicate_append (m : Nat) (l : List Nat) :
    List.dropWhile isWS (List.replicate m 32 ++ l) = List.dropWhile isWS l := by
  induction m with
  | zero => simp
  | succ k ih =>
    rw [List.replicate_succ, List.cons_append, List.dropWhile_cons]
    simp only [isWS]
    norm_num
    exact ih

theorem trim_padEnd (s : List Nat) (hne : s ≠ []) (hws : ∀ c ∈ s, isWS c = false)
    (len : Int) : trim (padEnd s len 32) = s := by
  unfold trim padEnd
  have h1 : List.dropWhile isWS (s ++ List.replicate (len - s.length).toNat 32)
      = s ++ List.replicate (len - s.length).toNat 32 := by
    cases s with
    | nil => exact absurd rfl hne
    | cons a t =>
      rw [List.cons_append, List.dropWhile_cons]
      simp [hws a (by simp)]
  rw [h1, List.reverse_append, List.reverse_replicate, dropWhile_replicate_append]
  have h2 : List.dropWhile isWS s.reverse = s.reverse := by
    cases hr : s.reverse with
    | nil => simp
    | cons b r =>
      rw [List.dropWhile_cons]
      have hb : b ∈ s := by
        have : b ∈ s.reverse := by rw [hr]; simp
        exact List.mem_reverse.mp this
      simp [hws b hb]
  rw [h2, List.reverse_reverse]

/-! State of the region after create, content write and close. -/

theorem entryOff_eq (p : Params) (i : Nat) :
    entryOff p i = p.flash_addr + 3 + 26 * (i : Int) := by
  simp only [entryOff, ENTRY_WIDTH, BOF_LENGTH, FILE_NAME_LENGTH, FILE_SIZE_LENGTH,
    FILE_ADDR_LENGTH, EOF_LENGTH, HEADER_BYTE, List.length_cons, List.length_nil]
  push_cast
  ring

theorem wFull_state (p : Params) (mem : Flash) (k : Nat) (name b : List Nat) (A : Int)
    (hd : dirState p mem k)
    (hstop2 : mem (entryOff p (k + 1)) ≠ BOF_BYTE)
    (hn : nameOk name)
    (hk : k ≤ 156)
    (hfa : 0 ≤ p.flash_addr)
    (hA1 : p.flash_addr + PAGE_SIZE ≤ A)
    (hA2 : A < 2147483648)
    (hL : (b.length : Int) < 2147483648) :
    dirState p (wFull mem name b (entryOff p k) A) (k + 1) ∧
    (∀ i, i < k → entryAt p (wFull mem name b (entryOff p k) A) i = entryAt p mem i) ∧
    entryAt p (wFull mem name b (entryOff p k) A) k =
      ⟨entryOff p k, name, (b.length : Int), A, entryOff p k + 25⟩ := by
  obtain ⟨hck, hpre, hstop⟩ := hd
  have hh : (HEADER_BYTE.length : Int) = 3 := rfl
  have hek := entryOff_eq p k
  have hApos : entryOff p k + 26 < A := by
    simp only [PAGE_SIZE] at hA1
    omega
  have hpl : ((padEnd name FILE_NAME_LENGTH 32).length : Int) = 16 := by
    have := padEnd_length name FILE_NAME_LENGTH 32 hn.2.1
    simpa [FILE_NAME_LENGTH] using this
  -- pointwise preservation below the new entry
  have low_pt : ∀ x : Int, x < entryOff p k → wFull mem name b (entryOff p k) A x = mem x := by
    intro x hx
    unfold wFull wOpen
    rw [flashWrite_out _ _ _ _ (by simp only [u32b4_length]; omega)]
    rw [flashWrite_out _ _ _ _ (by omega)]
    rw [flashWrite_out _ _ _ _ (by simp only [List.length_singleton]; omega)]
    rw [flashWrite_out _ _ _ _ (by simp only [u32b4_length]; omega)]
    rw [flashWrite_out _ _ _ _ (by omega)]
    rw [flashWrite_out _ _ _ _ (by simp only [List.length_singleton]; omega)]
  -- read preservation below the new entry
  have read_low : ∀ len addr : Int, addr + len ≤ entryOff p k →
      flashRead (wFull mem name b (entryOff p k) A) len addr = flashRead mem len addr := by
    intro len addr hla
    unfold wFull wOpen
    rw [flashRead_flashWrite_out _ _ _ _ _ (by simp only [u32b4_length]; omega)]
    rw [flashRead_flashWrite_out _ _ _ _ _ (by omega)]
    rw [flashRead_flashWrite_out _ _ _ _ _ (by simp only [List.length_singleton]; omega)]
    rw [flashRead_flashWrite_out _ _ _ _ _ (by simp only [u32b4_length]; omega)]
    rw [flashRead_flashWrite_out _ _ _ _ _ (by omega)]
    rw [flashRead_flashWrite_out _ _ _ _ _ (by simp only [List.length_singleton]; omega)]
  -- the BOF byte of the new entry
  have m_pos : wFull mem name b (entryOff p k) A (entryOff p k) = BOF_BYTE := by
    unfold wFull wOpen
    rw [flashWrite_out _ _ _ _ (by simp only [u32b4_length]; omega)]
    rw [flashWrite_out _ _ _ _ (by omega)]
    rw [flashWrite_out _ _ _ _ (by simp only [List.length_singleton]; omega)]
    rw [flashWrite_out _ _ _ _ (by simp only [u32b4_length]; omega)]
    rw [flashWrite_out _ _ _ _ (by omega)]
    exact flashWrite_single mem BOF_BYTE (entryOff p k) (by norm_num [BOF_BYTE])
  -- the EOF byte of the new entry
  have m_eof : wFull mem name b (entryOff p k) A (entryOff p k + 25) = EOF_BYTE := by
    unfold wFull wOpen
    rw [flashWrite_out _ _ _ _ (by simp only [u32b4_length]; omega)]
    rw [flashWrite_out _ _ _ _ (by omega)]
    exact flashWrite_single _ EOF_BYTE (entryOff p k + 25) (by norm_num [EOF_BYTE])
  -- the byte right after the new entry is untouched
  have m_after : wFull mem name b (entryOff p k) A (entryOff p k + 26) =
      mem (entryOff p (k + 1)) := by
    rw [← entryOff_succ p k]
    unfold wFull wOpen
    rw [flashWrite_out _ _ _ _ (by simp only [u32b4_length]; omega)]
    rw [flashWrite_out _ _ _ _ (by omega)]
    rw [flashWrite_out _ _ _ _ (by simp only [List.length_singleton]; omega)]
    rw [flashWrite_out _ _ _ _ (by simp only [u32b4_length]; omega)]
    rw [flashWrite_out _ _ _ _ (by omega)]
    rw [flashWrite_out _ _ _ _ (by simp only [List.length_singleton]; omega)]
  -- decode of the new entry
  have e_path : flashRead (wFull mem name b (entryOff p k) A) FILE_NAME_LENGTH
      (entryOff p k + 1) = padEnd name FILE_NAME_LENGTH 32 := by
    unfold wFull wOpen
    rw [flashRead_flashWrite_out _ _ _ _ _
      (by simp only [u32b4_length, FILE_NAME_LENGTH]; omega)]
    rw [flashRead_flashWrite_out _ _ _ _ _ (by simp only [FILE_NAME_LENGTH]; omega)]
    rw [flashRead_flashWrite_out _ _ _ _ _
      (by simp only [List.length_singleton, FILE_NAME_LENGTH]; omega)]
    rw [flashRead_flashWrite_out _ _ _ _ _
      (by simp only [u32b4_length, FILE_NAME_LENGTH]; omega)]
    rw [flashRead_flashWrite_len (flashWrite mem [BOF_BYTE] (entryOff p k))
      (padEnd name FILE_NAME_LENGTH 32) (entryOff p k + 1) FILE_NAME_LENGTH
      (by rw [hpl]; rfl)]
    exact map_mod256_eq _ (padEnd_bytes name FILE_NAME_LENGTH fun c hc => (hn.2.2 c hc).1)
  have e_size : flashRead (wFull mem name b (entryOff p k) A) FILE_SIZE_LENGTH
      (entryOff p k + 17) = u32b4 (b.length : Int) := by
    unfold wFull
    rw [flashRead_flashWrite_len _ _ _ _ (by simp [u32b4_length, FILE_SIZE_LENGTH])]
    exact map_mod256_eq _ (u32b4_lt _)
  have e_addr : flashRead (wFull mem name b (entryOff p k) A) FILE_ADDR_LENGTH
      (entryOff p k + 21) = u32b4 A := by
    unfold wFull wOpen
    rw [flashRead_flashWrite_out _ _ _ _ _
      (by simp only [u32b4_length, FILE_ADDR_LENGTH]; omega)]
    rw [flashRead_flashWrite_out _ _ _ _ _ (by simp only [FILE_ADDR_LENGTH]; omega)]
    rw [flashRead_flashWrite_out _ _ _ _ _
      (by simp only [List.length_singleton, FILE_ADDR_LENGTH]; omega)]
    rw [flashRead_flashWrite_len _ _ _ _ (by simp [u32b4_length, FILE_ADDR_LENGTH])]
    exact map_mod256_eq _ (u32b4_lt _)
  refine ⟨⟨?_, ?_, ?_⟩, ?_, ?_⟩
  · -- check is preserved
    unfold check at hck ⊢
    rw [read_low _ _ (by omega)]
    exact hck
  · -- the first k + 1 slots are valid
    intro i hi
    rcases Nat.lt_succ_iff_lt_or_eq.mp hi with hik | rfl
    · obtain ⟨hbi, hei⟩ := hpre i hik
      have hei26 : entryOff p i + 26 ≤ entryOff p k := by
        have h1 := entryOff_eq p i
        omega
      constructor
      · unfold bofOk at hbi ⊢
        rw [low_pt _ (by omega)]
        exact hbi
      · unfold eofOk at hei ⊢
        rw [low_pt _ (by omega)]
        exact hei
    · exact ⟨m_pos, m_eof⟩
  · -- slot k + 1 has no BOF
    unfold bofOk
    rw [← entryOff_succ p k, m_after]
    exact hstop2
  · -- old entries decode unchanged
    intro i hik
    have hei26 : entryOff p i + 26 ≤ entryOff p k := by
      have h1 := entryOff_eq p i
      omega
    unfold entryAt
    rw [read_low _ _ (by simp only [FILE_NAME_LENGTH]; omega)]
    rw [read_low _ _ (by simp only [FILE_SIZE_LENGTH]; omega)]
    rw [read_low _ _ (by simp only [FILE_ADDR_LENGTH]; omega)]
  · -- the new entry decodes to the written values
    unfold entryAt
    rw [e_path, e_size, e_addr]
    rw [trim_padEnd name hn.1 (fun c hc => (hn.2.2 c hc).2) FILE_NAME_LENGTH]
    rw [b4u32_u32b4 _ (by positivity) hL]
    rw [b4u32_u32b4 A (by omega) hA2]

theorem dirEntries_succ (p : Params) (mem : Flash) (k : Nat) :
    dirEntries p mem (k + 1) = dirEntries p mem k ++ [entryAt p mem k] := by
  unfold dirEntries
  rw [List.range_succ, List.map_append]
  rfl

/-- C1 (amended): on an initialized region with a well-formed directory,
a fresh well-formed name and a nonempty byte payload that fits, the
sequence create, write, close, reopen, read of the payload length
returns exactly the payload. -/
theorem roundTrip_correct (p : Params) (mem : Flash) (k : Nat) (name b : List Nat)
    (hd : dirState p mem k)
    (hstop2 : mem (entryOff p (k + 1)) ≠ BOF_BYTE)
    (hf : freshName p mem k name)
    (hn : nameOk name)
    (hk : k ≤ 156)
    (hlu : p.flash_addr ≤ lastUsedAddr p mem k)
    (hb : b ≠ [])
    (hbb : ∀ x ∈ b, x < 256)
    (hw : newContentAddr p (lastUsedAddr p mem k) + b.length ≤ p.flash_length)
    (hfl : p.flash_length ≤ 2147483648)
    (hfa : 0 ≤ p.flash_addr) :
    roundTrip p mem name b = some b := by
  have hh : (HEADER_BYTE.length : Int) = 3 := rfl
  have hek := entryOff_eq p k
  have hL1 : 1 ≤ (b.length : Int) := by
    have := List.length_pos.mpr hb
    omega
  set A := newContentAddr p (lastUsedAddr p mem k) with hAdef
  have hq : 0 ≤ (lastUsedAddr p mem k - p.flash_addr) / PAGE_SIZE :=
    Int.ediv_nonneg (by omega) (by norm_num [PAGE_SIZE])
  have hA1 : p.flash_addr + PAGE_SIZE ≤ A := by
    rw [hAdef]
    unfold newContentAddr
    simp only [PAGE_SIZE] at hq ⊢
    omega
  have hA2 : A < p.flash_length := by omega
  have hA3 : A < 2147483648 := by omega
  have hPS : PAGE_SIZE = (4096 : Int) := rfl
  have hLlt : (b.length : Int) < 2147483648 := by omega
  have hApos : entryOff p k + 26 < A := by omega
  obtain ⟨hd6, hOld, hNew⟩ :=
    wFull_state p mem k name b A hd hstop2 hn hk hfa hA1 hA3 hLlt
  -- step 1: create
  have hk4096 : k < PAGE_SIZE.toNat := by
    have : PAGE_SIZE.toNat = 4096 := rfl
    omega
  have hstep1 : openFile p mem name .w =
      .ok (⟨.w, entryOff p k, A, 0, A⟩, wOpen mem name (entryOff p k) A) := by
    rw [openFile_w_reduce p mem k name hd hk4096 hf hn.2.1, openFileW_eq]
    rw [if_neg (by simp only [PAGE_SIZE]; omega)]
    rw [if_neg (by omega)]
    rfl
  -- step 2: content write
  have hstep2 : write p (wOpen mem name (entryOff p k) A) ⟨.w, entryOff p k, A, 0, A⟩
      (.bytes b) =
      .ok ((b.length : Int), ⟨.w, entryOff p k, A, 0, A + (b.length : Int)⟩,
        flashWrite (wOpen mem name (entryOff p k) A) b A) := by
    unfold write writeLen writeData
    dsimp only
    rw [if_neg (by decide)]
    rw [if_neg (by omega)]
  -- step 3: close
  have hstep3 : close (flashWrite (wOpen mem name (entryOff p k) A) b A)
      ⟨.w, entryOff p k, A, 0, A + (b.length : Int)⟩ =
      (wFull mem name b (entryOff p k) A, true) := by
    unfold close
    rw [if_pos (show (⟨.w, entryOff p k, A, 0, A + (b.length : Int)⟩ : FileFS).mode = .w
      from rfl)]
    dsimp only
    have e : A + (b.length : Int) - A = (b.length : Int) := by ring
    rw [e]
    have e2 : entryOff p k + BOF_LENGTH + FILE_NAME_LENGTH = entryOff p k + 17 := by
      simp only [BOF_LENGTH, FILE_NAME_LENGTH]
      ring
    rw [e2]
    rfl
  -- step 4: reopen for reading
  have hlist6 : list p (wFull mem name b (entryOff p k) A) =
      .ok (dirEntries p (wFull mem name b (entryOff p k) A) (k + 1)) :=
    list_ok_of_dirState p _ (k + 1) hd6 (by have : PAGE_SIZE.toNat = 4096 := rfl; omega)
  have hfind6 : (dirEntries p (wFull mem name b (entryOff p k) A) (k + 1)).find?
      (fun x => lowerStr x.path = lowerStr name) =
      some (entryAt p (wFull mem name b (entryOff p k) A) k) := by
    rw [dirEntries_succ]
    apply find_append_single
    · intro x hx
      simp only [dirEntries, List.mem_map, List.mem_range] at hx
      obtain ⟨i, hi, rfl⟩ := hx
      rw [hOld i hi]
      exact decide_eq_false (hf i hi)
    · rw [hNew]
      simp
  have hstep4 : openFile p (wFull mem name b (entryOff p k) A) name .r =
      .ok (⟨.r, entryOff p k, A, (b.length : Int), A⟩,
        wFull mem name b (entryOff p k) A) := by
    unfold openFile
    rw [hlist6]
    dsimp only
    rw [hfind6]
    dsimp only
    rw [hNew]
  -- step 5: read back
  have hcontent : flashRead (wFull mem name b (entryOff p k) A) (b.length : Int) A = b := by
    unfold wFull
    rw [flashRead_flashWrite_out _ _ _ _ _ (by simp only [u32b4_length]; omega)]
    rw [flashRead_flashWrite_len _ _ _ _ rfl]
    exact map_mod256_eq b hbb
  have hread : readBytes (wFull mem name b (entryOff p k) A)
      ⟨.r, entryOff p k, A, (b.length : Int), A⟩ (b.length : Int) =
      .ok (some b, ⟨.r, entryOff p k, A, (b.length : Int), A + (b.length : Int)⟩) := by
    unfold readBytes
    dsimp only
    rw [if_neg (by decide)]
    have einner : (if A + (b.length : Int) - (A + (b.length : Int)) > 0 then (b.length : Int)
        else A + (b.length : Int) - A) = (b.length : Int) := by
      rw [if_neg (by omega)]
      ring
    rw [einner]
    rw [if_pos (by omega)]
    rw [hcontent]
  -- assemble the pipeline
  unfold roundTrip
  rw [hstep1]
  dsimp only
  rw [hstep2]
  dsimp only
  rw [hstep3]
  dsimp only
  rw [hstep4]
  dsimp only
  rw [hread]

theorem roundTrip_correct_witness :
    dirState pW memW 0 ∧ nameOk [97] ∧ ([1, 2, 3] : List Nat) ≠ [] ∧
    roundTrip pW memW [97] [1, 2, 3] = some [1, 2, 3] :=
  ⟨by decide, by decide, by decide,
    roundTrip_correct pW memW 0 [97] [1, 2, 3] (by decide) (by decide) (by decide)
      (by decide) (by decide) (by decide) (by decide) (by decide) (by decide)
      (by decide) (by decide)⟩

/-- C1 counterexample: with the empty byte sequence, on a freshly
formatted region, the final read of the round trip returns no data (JS
undefined, modelled `none`), not the empty sequence itself. -/
theorem roundTrip_empty_counterexample :
    roundTrip pW memW [97] [] = none ∧ (none : Option (List Nat)) ≠ some [] := by
  constructor
  · decide
  · simp

/-- C2: on a write-mode handle, `close` writes the four big-endian bytes
of `cursor - contentAddress` at the fixed size-field offset
`bof + BOF_LENGTH + FILE_NAME_LENGTH` and changes nothing else; decoding
the written field recovers that value; on a read-mode handle, `close`
returns the memory unchanged. -/
theorem close_spec (mem : Flash) (bof addr len seek : Int) :
    (close mem ⟨.w, bof, addr, len, seek⟩ =
      (flashWrite mem (u32b4 (seek - addr)) (bof + BOF_LENGTH + FILE_NAME_LENGTH), true)) ∧
    (close mem ⟨.r, bof, addr, len, seek⟩ = (mem, true)) ∧
    (0 ≤ seek - addr → seek - addr < 2147483648 →
      b4u32 (flashRead (close mem ⟨.w, bof, addr, len, seek⟩).1 FILE_SIZE_LENGTH
        (bof + BOF_LENGTH + FILE_NAME_LENGTH)) = seek - addr) := by
  refine ⟨rfl, rfl, fun h1 h2 => ?_⟩
  show b4u32 (flashRead (flashWrite mem (u32b4 (seek - addr))
    (bof + BOF_LENGTH + FILE_NAME_LENGTH)) FILE_SIZE_LENGTH
    (bof + BOF_LENGTH + FILE_NAME_LENGTH)) = seek - addr
  rw [flashRead_flashWrite_len _ _ _ _ (by simp [u32b4_length, FILE_SIZE_LENGTH])]
  rw [map_mod256_eq _ (u32b4_lt _)]
  exact b4u32_u32b4 _ h1 h2

theorem close_spec_witness :
    (0 : Int) ≤ 4099 - 4096 ∧ (4099 - 4096 : Int) < 2147483648 ∧
    b4u32 (flashRead (close memW ⟨.w, 3, 4096, 0, 4099⟩).1 FILE_SIZE_LENGTH
      (3 + BOF_LENGTH + FILE_NAME_LENGTH)) = 4099 - 4096 :=
  ⟨by decide, by decide, (close_spec memW 3 4096 0 4099).2.2 (by decide) (by decide)⟩

/-- C10: on a handle of either mode, `seek` with no argument and `skip`
with no argument or with 0 return the current cursor position relative
to the content start, raise no error (no mode check runs), and leave the
handle unchanged; neither takes the memory at all, so no storage write
can occur. -/
theorem seek_skip_noarg (h : FileFS) :
    seek h none = .ok (h.seekAddr - h.addr, h) ∧
    skip h none = .ok (h.seekAddr - h.addr, h) ∧
    skip h (some 0) = .ok (h.seekAddr - h.addr, h) := by
  refine ⟨rfl, rfl, ?_⟩
  unfold skip
  dsimp only
  rw [if_neg (by simp)]

/-- C6 (code defect evaluation): on a write-mode handle freshly returned
by `openFile`, `skip` with a positive count reaches source line 315,
which reads the undeclared identifier `newSeekAddr` (the declared local
is `newSkipAddr`), so the call raises a ReferenceError instead of
advancing the cursor. -/
theorem skip_reference_error_eval :
    c6h.mode = .w ∧ c6h.addr = 4096 ∧
    errOf (skip c6h (some 1)) = some .refErrNewSeekAddr ∧
    errOf (skip c6h (some 1000)) = some .refErrNewSeekAddr := by decide

/-- C7 (amended): on a read-mode handle, a negative seek argument raises
the dedicated negative-value error (not WrongSeekPosition); for a
non-negative argument, WrongSeekPosition is raised exactly when the
candidate position `addr + n` lies before the content address or past
`addr + size`; every `n` in `[0, size]` succeeds, returns `n` (the
position relative to the content start) and places the cursor so that a
subsequent read starts at offset `n`. -/
theorem seek_read_mode (h : FileFS) (hm : h.mode = .r) :
    (∀ n : Int, n < 0 → seek h (some n) = .error .seekNegative) ∧
    (∀ n : Int, 0 ≤ n →
      (seek h (some n) = .error .wrongSeekPosition ↔
        (h.addr + n < h.addr ∨ h.addr + n > h.addr + h.length))) ∧
    (∀ n : Int, 0 ≤ n → n ≤ h.length →
      seek h (some n) = .ok (n, { h with seekAddr := h.addr + n }) ∧
      ∀ (mem : Flash) (m : Int), 0 < m → m ≤ h.length - n →
        readBytes mem { h with seekAddr := h.addr + n } m =
          .ok (some (flashRead mem m (h.addr + n)),
            { h with seekAddr := h.addr + n + m })) := by
  have hmw : ¬ (h.mode = .w) := by rw [hm]; decide
  refine ⟨fun n hn => ?_, fun n hn0 => ?_, fun n hn0 hnl => ⟨?_, fun mem m hm0 hml => ?_⟩⟩
  · unfold seek
    dsimp only
    rw [if_neg hmw, if_pos hn]
  · unfold seek
    dsimp only
    rw [if_neg hmw, if_neg (by omega)]
    by_cases hc : h.addr + n < h.addr ∨ h.addr + n > h.addr + h.length
    · rw [if_pos hc]
      exact iff_of_true rfl hc
    · rw [if_neg hc]
      exact iff_of_false (by simp) hc
  · unfold seek
    dsimp only
    rw [if_neg hmw, if_neg (by omega), if_neg (by omega)]
    have e : h.addr + n - h.addr = n := by ring
    rw [e]
  · unfold readBytes
    dsimp only
    rw [if_neg (by simp [hm])]
    have eav : (if h.addr + h.length - (h.addr + n + m) > 0 then m
        else h.addr + h.length - (h.addr + n)) = m := by
      by_cases hc : h.addr + h.length - (h.addr + n + m) > 0
      · rw [if_pos hc]
      · rw [if_neg hc]
        omega
    rw [eav]
    rw [if_pos (by omega)]

theorem seek_read_mode_witness :
    (⟨.r, 3, 4096, 3, 4096⟩ : FileFS).mode = .r ∧
    seek ⟨.r, 3, 4096, 3, 4096⟩ (some 2) =
      .ok (2, ⟨.r, 3, 4096, 3, 4096 + 2⟩) :=
  ⟨rfl, ((seek_read_mode ⟨.r, 3, 4096, 3, 4096⟩ rfl).2.2 2 (by decide) (by decide)).1⟩

/-- C7 counterexample: a negative seek argument on a read-mode handle
raises the negative-value error, which is a different error than
WrongSeekPosition, although the claim groups negative arguments under
WrongSeekPosition. -/
theorem seek_negative_counterexample :
    (-1 : Int) < 0 ∧
    seek (⟨.r, 3, 4096, 3, 4096⟩ : FileFS) (some (-1)) = .error .seekNegative ∧
    seek (⟨.r, 3, 4096, 3, 4096⟩ : FileFS) (some (-1)) ≠ .error .wrongSeekPosition := by
  decide

/-- C4 (code defect evaluation): region base 4096, length 12288 (region
end 16384).  After creating a file (content at absolute 8192) and
filling one page, the cursor is at absolute 12288; writing one more byte
raises InsufficientSpace although `cursor + 1 = 12289` does not exceed
the region end `flash_addr + flash_length = 16384`.  Line 390 compares
the absolute cursor against `flash_length` alone; the sibling bound in
`skip` (line 315) and the relative-addressing variant both use the
region end. -/
theorem write_bound_bug :
    c4state.1.mode = .w ∧ c4state.1.seekAddr = 12288 ∧
    errOf (write pC4 c4state.2 c4state.1 (.byte 7)) = some .insufficientSpace ∧
    c4state.1.seekAddr + writeLen (.byte 7) ≤ pC4.flash_addr + pC4.flash_length := by
  have hopen : openFile pC4 memC4 [97] .w =
      .ok (⟨.w, 4099, 8192, 0, 8192⟩, wOpen memC4 [97] 4099 8192) := by rfl
  have hc4 : c4state = (⟨.w, 4099, 8192, 0, 12288⟩,
      flashWrite (wOpen memC4 [97] 4099 8192) (List.replicate 4096 0) 8192) := by
    unfold c4state
    rw [hopen]
    dsimp only
    unfold write writeLen writeData
    dsimp only
    rw [if_neg (by decide)]
    simp only [List.length_replicate]
    norm_num [pC4]
  rw [hc4]
  refine ⟨rfl, rfl, ?_, by norm_num [writeLen, pC4]⟩
  unfold write errOf
  dsimp only
  rw [if_neg (by decide), if_pos (by norm_num [writeLen, pC4])]

/-- C3 (amended): for a successful write-mode `openFile`, the new
content address is page-aligned relative to the region base; it is the
first page boundary after the directory page when the table is empty;
and when a previous entry exists whose content address is page-aligned
and size is non-negative, it equals the previous content address plus
`(floor(previousSize / pageSize) + 1) * pageSize` — the first page
boundary strictly beyond the previous content end — so the two spans
never overlap. -/
theorem alloc_spec (p : Params) (mem : Flash) (k : Nat) (name : List Nat)
    (hd : dirState p mem k) (hk : k < PAGE_SIZE.toNat)
    (hf : freshName p mem k name) (hn : (name.length : Int) ≤ FILE_NAME_LENGTH)
    (h : FileFS) (mem1 : Flash)
    (hsucc : openFile p mem name .w = .ok (h, mem1)) :
    (h.addr - p.flash_addr) % PAGE_SIZE = 0 ∧
    (k = 0 → h.addr = p.flash_addr + PAGE_SIZE) ∧
    (∀ j, k = j + 1 → 0 ≤ (entryAt p mem j).length →
      (entryAt p mem j).addr + (entryAt p mem j).length < h.addr ∧
      (((entryAt p mem j).addr - p.flash_addr) % PAGE_SIZE = 0 →
        h.addr = (entryAt p mem j).addr +
          ((entryAt p mem j).length / PAGE_SIZE + 1) * PAGE_SIZE)) := by
  rw [openFile_w_reduce p mem k name hd hk hf hn, openFileW_eq] at hsucc
  have hPS : PAGE_SIZE = (4096 : Int) := rfl
  by_cases h1 : entryOff p k + 26 - p.flash_addr > PAGE_SIZE - 1
  · rw [if_pos h1] at hsucc
    exact absurd hsucc (by simp)
  · rw [if_neg h1] at hsucc
    by_cases h2 : newContentAddr p (lastUsedAddr p mem k) ≥ p.flash_length
    · rw [if_pos h2] at hsucc
      exact absurd hsucc (by simp)
    · rw [if_neg h2] at hsucc
      have hpair := hsucc
      rw [Except.ok.injEq, Prod.mk.injEq] at hpair
      obtain ⟨hh, hm⟩ := hpair
      have haddr : h.addr = newContentAddr p (lastUsedAddr p mem k) := by
        rw [← hh]
      unfold newContentAddr at haddr
      refine ⟨?_, ?_, ?_⟩
      · rw [haddr, hPS]
        omega
      · intro hk0
        subst hk0
        have hlu : lastUsedAddr p mem 0 = p.flash_addr + 3 := rfl
        rw [haddr, hlu, hPS]
        omega
      · intro j hkj hj0
        subst hkj
        have hlu : lastUsedAddr p mem (j + 1) =
            (entryAt p mem j).addr + (entryAt p mem j).length := rfl
        rw [haddr, hlu, hPS]
        constructor
        · omega
        · intro halign
          omega

theorem alloc_spec_witness :
    dirState pW memW 0 ∧
    ((4096 : Int) - pW.flash_addr) % PAGE_SIZE = 0 ∧
    (4096 : Int) = pW.flash_addr + PAGE_SIZE :=
  ⟨by decide,
    (alloc_spec pW memW 0 [97] (by decide) (by decide) (by decide) (by decide)
      ⟨.w, 3, 4096, 0, 4096⟩ (wOpen memW [97] 3 4096) rfl).1,
    (alloc_spec pW memW 0 [97] (by decide) (by decide) (by decide) (by decide)
      ⟨.w, 3, 4096, 0, 4096⟩ (wOpen memW [97] 3 4096) rfl).2.1 rfl⟩

/-- C3 counterexample: on a four-page region, after creating and closing
a zero-size file (content address 4096), creating a second file yields
content address 8192, while the claim formula `previous address +
ceil(previousSize / pageSize) * pageSize` gives 4096: the code always
advances at least one whole page past the previous content address. -/
theorem alloc_counterexample :
    (entryAt pA memA 0).addr = 4096 ∧ (entryAt pA memA 0).length = 0 ∧
    openAddr (openFile pA memA [98] .w) = 8192 ∧
    (4096 : Int) + ((0 + PAGE_SIZE - 1) / PAGE_SIZE) * PAGE_SIZE = 4096 ∧
    (8192 : Int) ≠ 4096 := by decide

/-- C5: with `k` valid entries, write-mode `openFile` on a fresh short
name raises DirectoryFull exactly when the new entry's EOF byte position
would exceed the last byte of the first page; equivalently, it never
raises DirectoryFull while `k < floor((pageSize - headerLength) /
entryWidth)` and always does once `k` reaches that bound, which equals
157. -/
theorem directoryFull_spec (p : Params) (mem : Flash) (k : Nat) (name : List Nat)
    (hd : dirState p mem k) (hk : k < PAGE_SIZE.toNat)
    (hf : freshName p mem k name) (hn : (name.length : Int) ≤ FILE_NAME_LENGTH) :
    (openFile p mem name .w = .error .directoryFull ↔
      entryOff p k + ENTRY_WIDTH - 1 > p.flash_addr + PAGE_SIZE - 1) ∧
    ((k : Int) < maxFiles → openFile p mem name .w ≠ .error .directoryFull) ∧
    (maxFiles ≤ (k : Int) → openFile p mem name .w = .error .directoryFull) ∧
    maxFiles = 157 := by
  rw [openFile_w_reduce p mem k name hd hk hf hn, openFileW_eq]
  have hPS : PAGE_SIZE = (4096 : Int) := rfl
  have hEW : ENTRY_WIDTH = (26 : Int) := rfl
  have hMF : maxFiles = (157 : Int) := by decide
  have hek := entryOff_eq p k
  by_cases hc : entryOff p k + 26 - p.flash_addr > PAGE_SIZE - 1
  · rw [if_pos hc]
    refine ⟨iff_of_true rfl (by rw [hEW, hPS]; rw [hPS] at hc; omega), ?_, fun _ => rfl, hMF⟩
    intro hlt
    rw [hMF] at hlt
    rw [hPS] at hc
    omega
  · rw [if_neg hc]
    have hne : (if newContentAddr p (lastUsedAddr p mem k) ≥ p.flash_length then
        (.error .regionFull : Except Err (FileFS × Flash))
      else
        .ok (⟨.w, entryOff p k, newContentAddr p (lastUsedAddr p mem k), 0,
          newContentAddr p (lastUsedAddr p mem k)⟩,
          flashWrite
            (flashWrite
              (flashWrite (flashWrite mem [BOF_BYTE] (entryOff p k))
                (padEnd name FILE_NAME_LENGTH 32) (entryOff p k + 1))
              (u32b4 (newContentAddr p (lastUsedAddr p mem k))) (entryOff p k + 21))
            [EOF_BYTE] (entryOff p k + 25))) ≠ .error .directoryFull := by
      split_ifs
      · simp
      · simp
    refine ⟨iff_of_false hne (by rw [hEW, hPS]; rw [hPS] at hc; omega), fun _ => hne, ?_, hMF⟩
    intro hge
    rw [hMF] at hge
    rw [hPS] at hc
    omega

theorem directoryFull_spec_witness :
    dirState pW memW 0 ∧ (0 : Int) < maxFiles ∧
    openFile pW memW [97] .w ≠ .error .directoryFull :=
  ⟨by decide, by decide,
    (directoryFull_spec pW memW 0 [97] (by decide) (by decide) (by decide)
      (by decide)).2.1 (by decide)⟩

/-- C8: on a state passing the header check, the scan returns exactly the
decoded entries of the maximal run of valid slots, in slot order, stopping
at the first slot whose first byte is not the BOF sentinel — no entry is
skipped; and whenever some slot in that run carries BOF but lacks the EOF
sentinel at its expected offset, the whole listing aborts with CorruptEntry
naming the offending entry — no partial list is returned. -/
theorem list_scan_spec (p : Params) (mem : Flash) :
    (∀ k : Nat, k < PAGE_SIZE.toNat → check p mem = true → goodPrefix p mem k →
      ¬ bofOk p mem k → list p mem = .ok (dirEntries p mem k)) ∧
    (∀ j : Nat, j < PAGE_SIZE.toNat → check p mem = true → goodPrefix p mem j →
      bofOk p mem j → ¬ eofOk p mem j →
      list p mem = .error (.corruptEntry (entryAt p mem j).path)) :=
  ⟨fun k hk hc hpre hstop => list_ok_of_dirState p mem k ⟨hc, hpre, hstop⟩ hk,
   fun j hj hc hpre hb he => list_corrupt p mem j hc hpre hb he hj⟩

theorem list_scan_spec_witness :
    (check pW memD1 = true ∧ goodPrefix pW memD1 1 ∧ ¬ bofOk pW memD1 1 ∧
      list pW memD1 = .ok (dirEntries pW memD1 1)) ∧
    (check pW memD2 = true ∧ goodPrefix pW memD2 0 ∧ bofOk pW memD2 0 ∧
      ¬ eofOk pW memD2 0 ∧
      list pW memD2 = .error (.corruptEntry (entryAt pW memD2 0).path)) :=
  ⟨⟨by decide, by decide, by decide,
    (list_scan_spec pW memD1).1 1 (by decide) (by decide) (by decide) (by decide)⟩,
   ⟨by decide, by decide, by decide, by decide,
    (list_scan_spec pW memD2).2 0 (by decide) (by decide) (by decide) (by decide)
      (by decide)⟩⟩

theorem eraseLoop_apply (count : Nat) : ∀ (mem : Flash) (addr x : Int),
    eraseLoop mem addr count x =
      if addr ≤ x ∧ x < addr + (count : Int) * PAGE_SIZE then 255 else mem x := by
  induction count with
  | zero =>
    intro mem addr x
    simp only [eraseLoop, PAGE_SIZE]
    rw [if_neg (by omega)]
  | succ n ih =>
    intro mem addr x
    rw [show eraseLoop mem addr (n + 1) =
      eraseLoop (erasePage mem addr) (addr + PAGE_SIZE) n from rfl]
    rw [ih]
    unfold erasePage
    simp only [PAGE_SIZE]
    split_ifs <;> first | rfl | (exfalso; omega)

/-- C9: after `format` (which erases the region in page-size strides,
resetting bytes to all-ones, then writes the magic header), the check
succeeds, `format` itself reports success, the listing is empty, and
every region byte past the header holds the erased value 255. -/
theorem format_spec (p : Params) (mem : Flash)
    (_ha : p.flash_addr % PAGE_SIZE = 0) (hl : 0 < p.flash_length) :
    check p (format p mem).1 = true ∧
    (format p mem).2 = true ∧
    list p (format p mem).1 = .ok [] ∧
    ∀ a : Int, p.flash_addr + (HEADER_BYTE.length : Int) ≤ a →
      a < p.flash_addr + p.flash_length → (format p mem).1 a = 255 := by
  have hh : (HEADER_BYTE.length : Int) = 3 := rfl
  have hcount : p.flash_length ≤
      ((((p.flash_length + 4096 - 1) / 4096).toNat : Int)) * 4096 := by
    omega
  have hfmt : (format p mem).1 = flashWrite (eraseLoop mem p.flash_addr
      ((p.flash_length + PAGE_SIZE - 1) / PAGE_SIZE).toNat) HEADER_BYTE p.flash_addr := rfl
  have hcheck : check p (format p mem).1 = true := by
    unfold check
    rw [hfmt, flashRead_flashWrite_len _ _ _ _ rfl]
    decide
  have hbyte : ∀ a : Int, p.flash_addr + 3 ≤ a → a < p.flash_addr + p.flash_length →
      (format p mem).1 a = 255 := by
    intro a h1 h2
    rw [hfmt]
    rw [flashWrite_out _ _ _ _ (by omega)]
    rw [eraseLoop_apply]
    rw [if_pos (by simp only [PAGE_SIZE]; omega)]
  have hstop0 : ¬ bofOk p (format p mem).1 0 := by
    unfold bofOk
    rw [entryOff_zero, hh, hfmt]
    rw [flashWrite_out _ _ _ _ (by omega)]
    rw [eraseLoop_apply]
    rw [if_pos (by simp only [PAGE_SIZE]; omega)]
    decide
  have hlst : list p (format p mem).1 = .ok [] := by
    have hds : dirState p (format p mem).1 0 :=
      ⟨hcheck, fun i hi => absurd hi (Nat.not_lt_zero i), hstop0⟩
    have := list_ok_of_dirState p (format p mem).1 0 hds (by decide)
    simpa [dirEntries] using this
  have h2nd : (format p mem).2 = true := by
    have he : (format p mem).2 = check p (format p mem).1 := rfl
    rw [he]
    exact hcheck
  exact ⟨hcheck, h2nd, hlst, fun a ha1 ha2 => hbyte a (by omega) ha2⟩

theorem format_spec_witness :
    pW.flash_addr % PAGE_SIZE = 0 ∧ 0 < pW.flash_length ∧
    check pW (format pW (fun _ => 0)).1 = true ∧
    list pW (format pW (fun _ => 0)).1 = .ok [] :=
  ⟨by decide, by decide,
    (format_spec pW (fun _ => 0) (by decide) (by decide)).1,
    (format_spec pW (fun _ => 0) (by decide) (by decide)).2.2.1⟩

/-! Divergence facts about the second source variant. -/

theorem v2_write_region_end (p : Params) (mem : Flash) (h : FileFS) (buffer : WriteData)
    (hm : h.mode = .w) :
    errOf (V2.write p mem h buffer) = some .insufficientSpace ↔
      p.flash_addr + h.addr + h.seekAddr + writeLen buffer >
        p.flash_addr + p.flash_length := by
  unfold V2.write
  rw [if_neg (by simp [hm])]
  dsimp only
  by_cases hc : h.addr + h.seekAddr + writeLen buffer > p.flash_length
  · rw [if_pos hc]
    exact iff_of_true rfl (by omega)
  · rw [if_neg hc]
    exact iff_of_false (by simp [errOf]) (by omega)

theorem v2_skip_advances (p : Params) (h : FileFS) (n : Int) (hm : h.mode = .w)
    (hn : 0 < n) (hb : ¬ (h.addr + (h.seekAddr + n) > p.flash_length)) :
    V2.skip p h (some n) = .ok (h.seekAddr + n, { h with seekAddr := h.seekAddr + n }) := by
  unfold V2.skip
  dsimp only
  rw [if_pos (by omega), if_neg (by simp [hm]), if_neg (by omega), if_neg hb]

theorem v2_close_wrong_size :
    b4u32 (flashRead (V2.close ⟨0, 16384⟩ (fun _ => 255) ⟨.w, 2, 4096, 0, 3⟩).1
      FILE_SIZE_LENGTH (0 + 2 + BOF_LENGTH + V2.FILE_NAME_LENGTH)) = 3 - 4096 ∧
    (3 - 4096 : Int) ≠ 3 := by decide

end FlashFS
